import Mathlib

/-!
Verification of the gophermart loyalty service (order validation, balance
ledger, reconciliation worker) against its natural-language specification.

Amounts that the Go code holds in `float64` columns are modelled as exact
rationals (`ℚ`): every claim checked here concerns control flow, aggregation
structure and transactional atomicity, none of which depends on rounding.
Go strings are UTF-8 byte sequences; we model a string by its list of runes
(`Char`) and recover the byte view through an explicit UTF-8 encoder, because
`IsValidOrderNumber` mixes a rune-level digit test with byte-level indexing.
-/

namespace Gophermart

/-- UTF-8 encoding of one rune, as Go lays a `string` out in memory. -/
def utf8Bytes (c : Char) : List Nat :=
  if c.toNat < 128 then [c.toNat]
  else if c.toNat < 2048 then
    [192 + c.toNat / 64, 128 + c.toNat % 64]
  else if c.toNat < 65536 then
    [224 + c.toNat / 4096, 128 + c.toNat / 64 % 64, 128 + c.toNat % 64]
  else
    [240 + c.toNat / 262144, 128 + c.toNat / 4096 % 64,
      128 + c.toNat / 64 % 64, 128 + c.toNat % 64]

/-- The bytes of a Go string whose runes are `l`. -/
def stringBytes (l : List Char) : List Nat :=
  (l.map utf8Bytes).flatten

/-- The code point ranges of Unicode general category Nd (decimal digit),
the table behind Go's `unicode.Digit`.  Modelled from the Go standard
library's `unicode` package, which is outside this repository's files. -/
def ndRanges : List (Nat × Nat) :=
  [(48, 57), (1632, 1641), (1776, 1785), (1984, 1993), (2406, 2415),
   (2534, 2543), (2662, 2671), (2790, 2799), (2918, 2927), (3046, 3055),
   (3174, 3183), (3302, 3311), (3430, 3439), (3558, 3567), (3664, 3673),
   (3792, 3801), (3872, 3881), (4160, 4169), (4240, 4249), (6112, 6121),
   (6160, 6169), (6470, 6479), (6608, 6617), (6784, 6793), (6800, 6809),
   (6992, 7001), (7088, 7097), (7232, 7241), (7248, 7257), (42528, 42537),
   (43216, 43225), (43264, 43273), (43472, 43481), (43504, 43513),
   (43600, 43609), (44016, 44025), (65296, 65305), (66720, 66729),
   (68912, 68921), (69734, 69743), (69872, 69881), (69942, 69951),
   (70096, 70105), (70384, 70393), (70736, 70745), (70864, 70873),
   (71248, 71257), (71360, 71369), (71472, 71481), (72016, 72025),
   (72784, 72793), (73040, 73049), (73120, 73129), (73552, 73561),
   (92768, 92777), (92864, 92873), (93008, 93017), (120782, 120831),
   (123200, 123209), (123632, 123641), (125264, 125273), (130032, 130041)]

/-- Go's `unicode.IsDigit`: a Latin-1 fast path accepting only ASCII
`'0'..'9'`, otherwise a lookup in the Nd range table.  Modelled from the Go
standard library's `unicode` package, which is outside this repository's
files. -/
def isDigitGo (c : Char) : Bool :=
  if c.toNat ≤ 255 then decide (48 ≤ c.toNat) && decide (c.toNat ≤ 57)
  else ndRanges.any fun p => decide (p.1 ≤ c.toNat) && decide (c.toNat ≤ p.2)

/-- The checksum loop of `IsValidOrderNumber` (src/internal/service/utils.go),
fed the bytes of the string from the rightmost one, with the alternating
doubling flag.  `d := int(s[i] - '0')` subtracts in `uint8`, so it wraps
modulo 256 before widening. -/
def luhnSumRev : List Nat → Bool → Nat
  | [], _ => 0
  | b :: rest, dbl =>
    let d0 := (b + 256 - 48) % 256
    let d := if dbl then (if d0 * 2 > 9 then d0 * 2 - 9 else d0 * 2) else d0
    d + luhnSumRev rest (!dbl)

/-- The function IsValidOrderNumber (src/internal/service/utils.go): reject the empty
string, reject on the first rune failing `unicode.IsDigit`, then run the
mod-10 checksum over the string's bytes from the right. -/
def IsValidOrderNumber (s : String) : Bool :=
  if s = "" then false
  else if s.data.all isDigitGo then
    luhnSumRev (stringBytes s.data).reverse false % 10 == 0
  else false

/-- The checksum as the spec words it: over the digit values themselves,
rightmost first, doubling every second one and folding back above 9. -/
def specLuhnSumRev : List Nat → Bool → Nat
  | [], _ => 0
  | v :: rest, dbl =>
    let d := if dbl then (if v * 2 > 9 then v * 2 - 9 else v * 2) else v
    d + specLuhnSumRev rest (!dbl)

/-- The validity rule exactly as the spec states it: non-empty, every
character a decimal digit, and the digit sequence passes the mod-10
checksum counted from the rightmost digit. -/
def specValidOrderNumber (s : String) : Bool :=
  if s = "" then false
  else if s.data.all fun c => decide (48 ≤ c.toNat) && decide (c.toNat ≤ 57) then
    specLuhnSumRev ((s.data.map fun c => c.toNat - 48)).reverse false % 10 == 0
  else false

/-! ## Store rows and repository reads

One row per table: `orders` (src/unnamed/part_002) and `withdrawals`
(src/unnamed/part_001).  A `NULL` SQL column is an `Option`. -/

/-- A row of the `orders` table (`repository.Order`). -/
structure OrderRow where
  id : Int
  userID : Int
  number : String
  status : String
  accrual : Option ℚ
  uploadedAt : Nat
deriving Repr, DecidableEq

/-- A row of the `withdrawals` table (`repository.Withdrawal`, plus its
`user_id` column). -/
structure WithdrawalRow where
  userID : Int
  order : String
  sum : ℚ
  processedAt : Nat
deriving Repr, DecidableEq

/-- The database state the balance service reads and writes. -/
structure DBState where
  orders : List OrderRow
  withdrawals : List WithdrawalRow
deriving Repr, DecidableEq

/-- Embeds `BalanceRepository.GetAccrued` / `GetAccruedInTx`
(src/internal/repository/balance_repository.go): the SQL aggregate
`SELECT COALESCE(SUM(accrual), 0) FROM orders WHERE user_id = $1 AND
status = 'PROCESSED'`, scanning row by row; `SUM` skips NULL accruals and
`COALESCE` turns an empty aggregate into 0. -/
def GetAccrued (orders : List OrderRow) (userID : Int) : ℚ :=
  orders.foldl
    (fun acc o =>
      if o.userID = userID ∧ o.status = "PROCESSED" then acc + o.accrual.getD 0
      else acc)
    0

/-- Embeds `BalanceRepository.GetWithdrawn` / `GetWithdrawnInTx`
(src/internal/repository/balance_repository.go): the SQL aggregate
`SELECT COALESCE(SUM(sum), 0) FROM withdrawals WHERE user_id = $1`. -/
def GetWithdrawn (withdrawals : List WithdrawalRow) (userID : Int) : ℚ :=
  withdrawals.foldl
    (fun acc w => if w.userID = userID then acc + w.sum else acc)
    0

/-- The struct `service.Balance` (src/unnamed/part_006). -/
structure Balance where
  Current : ℚ
  Withdrawn : ℚ
deriving Repr, DecidableEq

/-- Embeds `BalanceService.GetBalance` (src/unnamed/part_006): two aggregate reads,
then `Current = accrued - withdrawn`. -/
def GetBalance (st : DBState) (userID : Int) : Balance :=
  let accrued := GetAccrued st.orders userID
  let withdrawn := GetWithdrawn st.withdrawals userID
  { Current := accrued - withdrawn, Withdrawn := withdrawn }

/-! ## BalanceService.Withdraw -/

/-- The outcomes of `BalanceService.Withdraw` (src/unnamed/part_006).  Every
wrapped storage error (begin, the two aggregate reads, the insert, commit)
is collapsed into `errTx`; the code only formats them differently. -/
inductive WithdrawResult where
  | ok
  | errInvalidInput
  | errInvalidOrderNumber
  | errInsufficientFunds
  | errTx
deriving Repr, DecidableEq

/-- Which fallible storage steps of the withdrawal transaction fail, in the
order the code runs them. -/
structure TxFailures where
  beginTx : Bool
  getAccrued : Bool
  getWithdrawn : Bool
  createWithdrawal : Bool
  commit : Bool
deriving Repr, DecidableEq

/-- Embeds `BalanceService.Withdraw` (src/unnamed/part_006).  The guards run in
source order; after `BeginTx`, `defer tx.Rollback()` discards everything on
every error path, and only `tx.Commit()` makes the row inserted by
`WithdrawalRepository.CreateInTx` (src/unnamed/part_001) durable — so the
state moves only on the final success return. -/
def Withdraw (fp : TxFailures) (st : DBState) (userID : Int) (order : String)
    (sum : ℚ) (now : Nat) : WithdrawResult × DBState :=
  if order = "" ∨ sum ≤ 0 then (WithdrawResult.errInvalidInput, st)
  else if ¬ IsValidOrderNumber order then (WithdrawResult.errInvalidOrderNumber, st)
  else if fp.beginTx then (WithdrawResult.errTx, st)
  else if fp.getAccrued then (WithdrawResult.errTx, st)
  else if fp.getWithdrawn then (WithdrawResult.errTx, st)
  else
    if GetAccrued st.orders userID - GetWithdrawn st.withdrawals userID < sum then
      (WithdrawResult.errInsufficientFunds, st)
    else if fp.createWithdrawal then (WithdrawResult.errTx, st)
    else if fp.commit then (WithdrawResult.errTx, st)
    else (WithdrawResult.ok,
      { st with withdrawals := st.withdrawals ++ [⟨userID, order, sum, now⟩] })

/-! ## OrderService.CreateOrder -/

/-- The errors of `OrderService.CreateOrder` (src/internal/service/order_service.go). -/
inductive OrderServiceError where
  | errInvalidInput
  | errInvalidOrderNumber
  | errConflict
  | errStore
deriving Repr, DecidableEq

/-- The struct `service.CreateOrderResult` (src/internal/service/order_service.go). -/
structure CreateOrderResult where
  Created : Bool
deriving Repr, DecidableEq

/-- Embeds `OrderRepository.GetByNumber` (src/unnamed/part_002):
`SELECT user_id FROM orders WHERE number = $1`, `ErrNotFound` when no row. -/
def GetByNumber (orders : List OrderRow) (number : String) : Option Int :=
  (orders.find? fun o => decide (o.number = number)).map fun o => o.userID

/-- Embeds `OrderService.CreateOrder` (src/internal/service/order_service.go):
reject empty and checksum-failing numbers, look the number up, treat the
caller's own number as a no-op, another owner as a conflict, and otherwise
insert a `NEW` row with a NULL accrual via `OrderRepository.Create`
(src/unnamed/part_002).  `newID` stands for the serial id the database
assigns. -/
def CreateOrder (st : DBState) (userID : Int) (number : String) (now : Nat)
    (newID : Int) : Except OrderServiceError CreateOrderResult × DBState :=
  if number = "" then (Except.error OrderServiceError.errInvalidInput, st)
  else if ¬ IsValidOrderNumber number then
    (Except.error OrderServiceError.errInvalidOrderNumber, st)
  else
    match GetByNumber st.orders number with
    | some existingUserID =>
      if existingUserID = userID then (Except.ok ⟨false⟩, st)
      else (Except.error OrderServiceError.errConflict, st)
    | none =>
      (Except.ok ⟨true⟩,
        { st with orders := st.orders ++ [⟨newID, userID, number, "NEW", none, now⟩] })

/-! ## Accrual provider client and reconciliation worker -/

/-- The `accrual.OrderStatus` constants (src/internal/accrual/client.go). -/
inductive ProviderStatus where
  | registered
  | invalid
  | processing
  | processed
deriving Repr, DecidableEq

/-- The struct `accrual.OrderAccrual` (src/internal/accrual/client.go): the decoded 200
body; the `accrual` field is optional (`*float64`, `omitempty`). -/
structure OrderAccrualInfo where
  order : String
  status : ProviderStatus
  accrual : Option ℚ
deriving Repr, DecidableEq

/-- The outcomes of `Client.GetOrderInfo` (src/internal/accrual/client.go):
200 decodes to an `OrderAccrualInfo`; 204 returns `(nil, nil)` — the order
is unknown to the provider; 429 returns `RateLimitError{RetryAfter}`; any
other status or transport failure is an ordinary error. -/
inductive ProviderResult where
  | info (oa : OrderAccrualInfo)
  | unknown
  | rateLimited (retryAfter : Nat)
  | otherError
deriving Repr, DecidableEq

/-- The observable actions of `AccrualService.processOrder`
(src/unnamed/part_005): a `time.Sleep`, an `OrderRepository.UpdateStatus`,
or an `OrderRepository.UpdateStatusWithAccrual` — the last writes status
and accrual in one SQL statement (src/unnamed/part_002). -/
inductive WorkerEvent where
  | sleep (d : Nat)
  | updateStatus (orderID : Int) (status : String)
  | updateStatusWithAccrual (orderID : Int) (status : String) (accrual : ℚ)
deriving Repr, DecidableEq

/-- Embeds `AccrualService.processOrder` (src/unnamed/part_005) as the list of
actions it performs for one order, given the provider's answer: a rate
limit sleeps `RetryAfter` and returns; other errors and an unknown order
do nothing; `REGISTERED`/`PROCESSING` write `PROCESSING`; `INVALID` writes
`INVALID`; `PROCESSED` writes `PROCESSED` together with the accrual value,
`0` standing in when the field is absent. -/
def processOrder (orderID : Int) : ProviderResult → List WorkerEvent
  | ProviderResult.rateLimited d => [WorkerEvent.sleep d]
  | ProviderResult.otherError => []
  | ProviderResult.unknown => []
  | ProviderResult.info oa =>
    match oa.status with
    | ProviderStatus.registered => [WorkerEvent.updateStatus orderID "PROCESSING"]
    | ProviderStatus.processing => [WorkerEvent.updateStatus orderID "PROCESSING"]
    | ProviderStatus.invalid => [WorkerEvent.updateStatus orderID "INVALID"]
    | ProviderStatus.processed =>
      [WorkerEvent.updateStatusWithAccrual orderID "PROCESSED" (oa.accrual.getD 0)]

/-- Effect of one worker action on the `orders` table:
`UPDATE orders SET ... WHERE id = $n` (src/unnamed/part_002). -/
def applyEvent (orders : List OrderRow) : WorkerEvent → List OrderRow
  | WorkerEvent.sleep _ => orders
  | WorkerEvent.updateStatus oid st =>
    orders.map fun o => if o.id = oid then { o with status := st } else o
  | WorkerEvent.updateStatusWithAccrual oid st v =>
    orders.map fun o =>
      if o.id = oid then { o with status := st, accrual := some v } else o

/-- Actions applied in order. -/
def applyEvents (orders : List OrderRow) (evs : List WorkerEvent) : List OrderRow :=
  evs.foldl applyEvent orders

/-- One pass of `StartWorker`'s inner loop (src/unnamed/part_005) over a
fetched batch: the orders are processed sequentially in one goroutine, so
the actions of later orders follow every action — including a rate-limit
sleep — of earlier ones. -/
def processBatchEvents (batch : List (Int × ProviderResult)) : List WorkerEvent :=
  (batch.map fun it => processOrder it.1 it.2).flatten

/-- Go's `time.Second`, in milliseconds. -/
def timeSecond : Nat := 1000

/-- The poll-interval update of `StartWorker` (src/unnamed/part_005): an
empty batch doubles the interval, capped by `min` at `10*time.Second`
(ten times the 1-second base); a non-empty batch resets it to the base. -/
def nextPollInterval (pollInterval : Nat) (batchEmpty : Bool) : Nat :=
  if batchEmpty then min (pollInterval * 2) (10 * timeSecond) else timeSecond

/-! ## The worker's three suspension points under cancellation

Each function returns how long the worker actually stays suspended when the
full wait would be `d` and cancellation is raised `t` into the wait
(`cancelAt = some t`), or never (`none`). -/

/-- The `select` on `ctx.Done()` and `time.After(pollInterval)` at the top of
`StartWorker` (src/unnamed/part_005): a cancellation raised during the wait
fires the `ctx.Done()` case at once, so the suspension lasts `min t d`. -/
def pollTimerWait (cancelAt : Option Nat) (d : Nat) : Nat :=
  match cancelAt with
  | none => d
  | some t => min t d

/-- The provider call in `processOrder`: the request is built with
`http.NewRequestWithContext` under `context.WithTimeout(ctx, 5s)`
(src/unnamed/part_005, src/internal/accrual/client.go), so cancelling the
context aborts the call at once and the suspension lasts `min t d`. -/
def providerCallWait (cancelAt : Option Nat) (d : Nat) : Nat :=
  match cancelAt with
  | none => d
  | some t => min t d

/-- The rate-limit pause in `processOrder` (src/unnamed/part_005) is
`time.Sleep(rl.RetryAfter)`: `time.Sleep` takes no context, so the worker
stays suspended for the whole delay no matter when cancellation is raised. -/
def rateLimitPause (cancelAt : Option Nat) (d : Nat) : Nat :=
  match cancelAt with
  | none => d
  | some _ => d

/-! ## The order table's reachable states -/

/-- One mutation of the `orders` table: `OrderService.CreateOrder` inserting
a `NEW` row with a NULL accrual and a fresh serial id
(src/internal/service/order_service.go, src/unnamed/part_002), or the worker
processing one fetched pending order — `GetPendingOrders` only returns rows
whose status is `NEW` or `PROCESSING` (src/unnamed/part_002). -/
inductive SysStep : List OrderRow → List OrderRow → Prop where
  | create (orders : List OrderRow) (uid : Int) (number : String) (now : Nat)
      (newID : Int) (hfresh : ∀ o ∈ orders, o.id ≠ newID) :
      SysStep orders (orders ++ [⟨newID, uid, number, "NEW", none, now⟩])
  | worker (orders : List OrderRow) (o : OrderRow) (ho : o ∈ orders)
      (hpending : o.status = "NEW" ∨ o.status = "PROCESSING")
      (res : ProviderResult) :
      SysStep orders (applyEvents orders (processOrder o.id res))

/-- Order-table states reachable from the empty table by creations and
worker updates. -/
inductive ReachableOrders : List OrderRow → Prop where
  | init : ReachableOrders []
  | step (s t : List OrderRow) (h : ReachableOrders s) (hs : SysStep s t) :
      ReachableOrders t

/-- No two rows of the order table share a serial id: the `orders` table's
`id` is the primary key the database assigns (src/unnamed/part_002 selects
and updates by it). -/
def UniqueIds (orders : List OrderRow) : Prop :=
  ∀ a ∈ orders, ∀ b ∈ orders, a.id = b.id → a = b

/-- The order-table invariant: an order's accrual is non-null exactly when
its status is `PROCESSED`. -/
def AccrualInv (orders : List OrderRow) : Prop :=
  ∀ o ∈ orders, (o.accrual ≠ none ↔ o.status = "PROCESSED")

end Gophermart

/-! ## Theorems -/

namespace Gophermart

/-- A list never equals itself with one more element appended. -/
theorem list_ne_append_singleton {α : Type} (l : List α) (x : α) :
    l ≠ l ++ [x] := by
  intro h
  have := congrArg List.length h
  simp at this

/-- C1: the withdrawal transaction is all-or-nothing.  Whatever storage
steps fail, a withdrawal row is appended exactly when `Withdraw` returns
`ok`, every non-`ok` outcome leaves the database untouched, and when the
balance read inside the transaction is strictly below the requested amount
the call fails with `errInsufficientFunds` and writes nothing. -/
theorem withdraw_row_persisted_iff_success (fp : TxFailures) (st : DBState)
    (u : Int) (ord : String) (amt : ℚ) (now : Nat) :
    ((Withdraw fp st u ord amt now).1 = WithdrawResult.ok ↔
      (Withdraw fp st u ord amt now).2.withdrawals
        = st.withdrawals ++ [⟨u, ord, amt, now⟩])
    ∧ ((Withdraw fp st u ord amt now).1 ≠ WithdrawResult.ok →
        (Withdraw fp st u ord amt now).2 = st)
    ∧ (¬ (ord = "" ∨ amt ≤ 0) → IsValidOrderNumber ord = true →
        fp.beginTx = false → fp.getAccrued = false → fp.getWithdrawn = false →
        GetAccrued st.orders u - GetWithdrawn st.withdrawals u < amt →
        (Withdraw fp st u ord amt now).1 = WithdrawResult.errInsufficientFunds
          ∧ (Withdraw fp st u ord amt now).2 = st) := by
  unfold Withdraw
  by_cases hlt : GetAccrued st.orders u - GetWithdrawn st.withdrawals u < amt <;>
    split_ifs <;> simp_all [list_ne_append_singleton]

/-- A conditional fold equals the sum over the filtered list. -/
theorem foldl_cond_sum {α : Type} (p : α → Prop) [DecidablePred p] (f : α → ℚ)
    (l : List α) (init : ℚ) :
    l.foldl (fun acc x => if p x then acc + f x else acc) init
      = init + ((l.filter fun x => decide (p x)).map f).sum := by
  induction l generalizing init with
  | nil => simp
  | cons hd tl ih =>
    by_cases h : p hd
    · simp [List.foldl_cons, ih, h, add_assoc]
    · simp [List.foldl_cons, ih, h]

/-- C2: `GetBalance` recomputes the pair from the two aggregates on every
call — `Withdrawn` is the sum of the user's withdrawal amounts, and
`Current` is the sum of the accrual amounts of the user's `PROCESSED`
(accepted) orders minus that withdrawn sum; no stored balance value exists
in the data model to be read. -/
theorem getBalance_recomputes_from_sums (st : DBState) (u : Int) :
    GetBalance st u =
      { Current :=
          ((st.orders.filter fun o =>
              decide (o.userID = u ∧ o.status = "PROCESSED")).map
            fun o => o.accrual.getD 0).sum
          - ((st.withdrawals.filter fun w => decide (w.userID = u)).map
              fun w => w.sum).sum,
        Withdrawn :=
          ((st.withdrawals.filter fun w => decide (w.userID = u)).map
            fun w => w.sum).sum } := by
  have ha := foldl_cond_sum (fun o : OrderRow => o.userID = u ∧ o.status = "PROCESSED")
    (fun o => o.accrual.getD 0) st.orders 0
  have hw := foldl_cond_sum (fun w : WithdrawalRow => w.userID = u)
    (fun w => w.sum) st.withdrawals 0
  simp only [zero_add] at ha hw
  simp [GetBalance, GetAccrued, GetWithdrawn, ha, hw]

/-- An ASCII rune is a single byte of the same value. -/
theorem utf8Bytes_ascii {c : Char} (h : c.toNat < 128) : utf8Bytes c = [c.toNat] := by
  unfold utf8Bytes
  rw [if_pos h]

/-- On an ASCII string the byte view is the rune values themselves. -/
theorem stringBytes_ascii {l : List Char} (h : ∀ c ∈ l, c.toNat < 128) :
    stringBytes l = l.map Char.toNat := by
  induction l with
  | nil => rfl
  | cons c tl ih =>
    have hc := h c (List.mem_cons_self c tl)
    have htl : ∀ x ∈ tl, x.toNat < 128 := fun x hx => h x (List.mem_cons_of_mem c hx)
    simp only [stringBytes, List.map_cons, List.flatten_cons, utf8Bytes_ascii hc,
      List.singleton_append]
    rw [show (tl.map utf8Bytes).flatten = stringBytes tl from rfl, ih htl]

/-- On the Latin-1 fast path, Go's digit test is the ASCII range check. -/
theorem isDigitGo_ascii {c : Char} (h : c.toNat < 128) :
    isDigitGo c = (decide (48 ≤ c.toNat) && decide (c.toNat ≤ 57)) := by
  unfold isDigitGo
  rw [if_pos (by omega : c.toNat ≤ 255)]

/-- On bytes that are ASCII digits, the code's byte checksum agrees with the
spec's digit-value checksum. -/
theorem luhnSumRev_eq_spec {bs : List Nat} (h : ∀ b ∈ bs, 48 ≤ b ∧ b ≤ 57) (dbl : Bool) :
    luhnSumRev bs dbl = specLuhnSumRev (bs.map fun b => b - 48) dbl := by
  induction bs generalizing dbl with
  | nil => rfl
  | cons b tl ih =>
    have hb := h b (List.mem_cons_self b tl)
    have htl : ∀ x ∈ tl, 48 ≤ x ∧ x ≤ 57 := fun x hx => h x (List.mem_cons_of_mem b hx)
    have hd0 : (b + 256 - 48) % 256 = b - 48 := by omega
    simp only [luhnSumRev, List.map_cons, specLuhnSumRev, hd0, ih htl]

/-- C3 (amended): restricted to strings of ASCII characters,
`IsValidOrderNumber` returns true exactly as the spec's rule states —
non-empty, all decimal digits, and the digit sequence passes the mod-10
checksum from the rightmost digit.  The restriction is needed because the
code's rune-level `unicode.IsDigit` test also admits non-ASCII Unicode
digits, over whose multi-byte UTF-8 encoding the byte-level checksum departs
from the spec's digit-value checksum (see the counterexample). -/
theorem isValidOrderNumber_matches_spec_on_ascii (s : String)
    (h : ∀ c ∈ s.data, c.toNat < 128) :
    IsValidOrderNumber s = specValidOrderNumber s := by
  unfold IsValidOrderNumber specValidOrderNumber
  by_cases hs : s = ""
  · simp [hs]
  · rw [if_neg hs, if_neg hs]
    by_cases hd : ∀ c ∈ s.data, 48 ≤ c.toNat ∧ c.toNat ≤ 57
    · have hall1 : s.data.all isDigitGo = true := by
        rw [List.all_eq_true]
        intro c hc
        rw [isDigitGo_ascii (h c hc)]
        simp [(hd c hc).1, (hd c hc).2]
      have hall2 :
          (s.data.all fun c => decide (48 ≤ c.toNat) && decide (c.toNat ≤ 57)) = true := by
        rw [List.all_eq_true]
        intro c hc
        simp [(hd c hc).1, (hd c hc).2]
      rw [if_pos hall1, if_pos hall2, stringBytes_ascii h]
      have hb : ∀ b ∈ (s.data.map Char.toNat).reverse, 48 ≤ b ∧ b ≤ 57 := by
        intro b hbm
        rw [List.mem_reverse, List.mem_map] at hbm
        obtain ⟨c, hc, rfl⟩ := hbm
        exact hd c hc
      rw [luhnSumRev_eq_spec hb false]
      have hlists : ((s.data.map Char.toNat).reverse.map fun b => b - 48)
          = ((s.data.map fun c => c.toNat - 48)).reverse := by
        simp [List.map_reverse, List.map_map, Function.comp]
      rw [hlists]
    · push_neg at hd
      obtain ⟨c, hc, hnc⟩ := hd
      have hfalse : (decide (48 ≤ c.toNat) && decide (c.toNat ≤ 57)) = false := by
        by_cases h48 : 48 ≤ c.toNat
        · have h57 := hnc h48
          simp only [Bool.and_eq_false_iff, decide_eq_false_iff_not]
          right
          omega
        · simp only [Bool.and_eq_false_iff, decide_eq_false_iff_not]
          left
          exact h48
      have hall1 : s.data.all isDigitGo = false := by
        rw [List.all_eq_false]
        exact ⟨c, hc, by rw [isDigitGo_ascii (h c hc), hfalse]; simp⟩
      have hall2 :
          (s.data.all fun c => decide (48 ≤ c.toNat) && decide (c.toNat ≤ 57)) = false := by
        rw [List.all_eq_false]
        exact ⟨c, hc, by rw [hfalse]; simp⟩
      rw [if_neg (by simp [hall1]), if_neg (by simp [hall2])]

/-- Witness for C3 at the classic valid Luhn number 79927398713. -/
theorem isValidOrderNumber_matches_spec_on_ascii_witness :
    IsValidOrderNumber "79927398713" = specValidOrderNumber "79927398713" :=
  isValidOrderNumber_matches_spec_on_ascii "79927398713" (by decide)

/-- C3 counterexample: the two-character string U+0660 (an Arabic-Indic
digit, which passes `unicode.IsDigit`) followed by ASCII 6 is accepted by
the code — its UTF-8 bytes D9 A0 36 happen to pass the byte checksum —
although the spec's rule rejects it: its digit sequence 0,6 sums to 6. -/
theorem isValidOrderNumber_accepts_nonascii_digit :
    IsValidOrderNumber "٠6" = true ∧ specValidOrderNumber "٠6" = false := by
  constructor <;> decide

/-- C4: a rate-limit answer for order A makes the sequential batch pass
sleep for the provider-given delay before any later order's actions occur
(the sleep stands between the earlier orders' events and the later ones in
the single worker goroutine's trace), and A itself gets no store write —
its row is left exactly as it was. -/
theorem rateLimit_pauses_loop_and_leaves_order (pre post : List (Int × ProviderResult))
    (a : Int) (d : Nat) (orders : List OrderRow) :
    processBatchEvents (pre ++ (a, ProviderResult.rateLimited d) :: post)
      = processBatchEvents pre ++ WorkerEvent.sleep d :: processBatchEvents post
    ∧ applyEvents orders (processOrder a (ProviderResult.rateLimited d)) = orders := by
  constructor
  · simp [processBatchEvents, processOrder]
  · simp [applyEvents, processOrder, applyEvent]

/-- After any number of consecutive empty polls the interval stays between
the base and ten times the base. -/
theorem pollInterval_bounds (n : Nat) :
    timeSecond ≤ (fun i => nextPollInterval i true)^[n] timeSecond ∧
      (fun i => nextPollInterval i true)^[n] timeSecond ≤ 10 * timeSecond := by
  induction n with
  | zero => simp [timeSecond]
  | succ n ih =>
    rw [Function.iterate_succ_apply']
    obtain ⟨h1, h2⟩ := ih
    simp only [nextPollInterval, if_pos, timeSecond] at *
    omega

/-- C5: across any run of consecutive empty polls starting from the base
interval, the interval doubles capped at ten times the base (so it is
non-decreasing and bounded by the ceiling), and a non-empty batch resets
it to the base value. -/
theorem worker_backoff_doubles_capped_resets (n : Nat) :
    timeSecond ≤ (fun i => nextPollInterval i true)^[n] timeSecond ∧
    (fun i => nextPollInterval i true)^[n] timeSecond ≤ 10 * timeSecond ∧
    (fun i => nextPollInterval i true)^[n] timeSecond
      ≤ (fun i => nextPollInterval i true)^[n + 1] timeSecond ∧
    (fun i => nextPollInterval i true)^[n + 1] timeSecond
      = min ((fun i => nextPollInterval i true)^[n] timeSecond * 2) (10 * timeSecond) ∧
    nextPollInterval ((fun i => nextPollInterval i true)^[n] timeSecond) false
      = timeSecond := by
  obtain ⟨h1, h2⟩ := pollInterval_bounds n
  rw [Function.iterate_succ_apply']
  refine ⟨h1, h2, ?_, ?_, ?_⟩
  · simp only [nextPollInterval, if_pos, timeSecond] at *
    omega
  · simp [nextPollInterval]
  · simp [nextPollInterval]

/-- C6: the provider-status mapping, as events and as the row they produce:
REGISTERED and PROCESSING write status `PROCESSING`; INVALID writes
`INVALID`; PROCESSED with a reported value writes `PROCESSED` and that
accrual value in the one same write; an unknown order performs no action
and the row is untouched. -/
theorem provider_status_mapping (oid : Int) (n num stt : String) (acc : Option ℚ)
    (v : ℚ) (u : Int) (a0 : Option ℚ) (t : Nat) :
    processOrder oid (ProviderResult.info ⟨n, ProviderStatus.registered, acc⟩)
      = [WorkerEvent.updateStatus oid "PROCESSING"]
    ∧ processOrder oid (ProviderResult.info ⟨n, ProviderStatus.processing, acc⟩)
      = [WorkerEvent.updateStatus oid "PROCESSING"]
    ∧ processOrder oid (ProviderResult.info ⟨n, ProviderStatus.invalid, acc⟩)
      = [WorkerEvent.updateStatus oid "INVALID"]
    ∧ processOrder oid (ProviderResult.info ⟨n, ProviderStatus.processed, some v⟩)
      = [WorkerEvent.updateStatusWithAccrual oid "PROCESSED" v]
    ∧ processOrder oid ProviderResult.unknown = []
    ∧ applyEvents [OrderRow.mk oid u num stt a0 t]
        (processOrder oid (ProviderResult.info ⟨n, ProviderStatus.registered, acc⟩))
      = [OrderRow.mk oid u num "PROCESSING" a0 t]
    ∧ applyEvents [OrderRow.mk oid u num stt a0 t]
        (processOrder oid (ProviderResult.info ⟨n, ProviderStatus.processing, acc⟩))
      = [OrderRow.mk oid u num "PROCESSING" a0 t]
    ∧ applyEvents [OrderRow.mk oid u num stt a0 t]
        (processOrder oid (ProviderResult.info ⟨n, ProviderStatus.invalid, acc⟩))
      = [OrderRow.mk oid u num "INVALID" a0 t]
    ∧ applyEvents [OrderRow.mk oid u num stt a0 t]
        (processOrder oid (ProviderResult.info ⟨n, ProviderStatus.processed, some v⟩))
      = [OrderRow.mk oid u num "PROCESSED" (some v) t]
    ∧ applyEvents [OrderRow.mk oid u num stt a0 t]
        (processOrder oid ProviderResult.unknown)
      = [OrderRow.mk oid u num stt a0 t] := by
  refine ⟨rfl, rfl, rfl, rfl, rfl, ?_, ?_, ?_, ?_, rfl⟩ <;>
    simp [applyEvents, applyEvent, processOrder]

/-- C7: with a valid order number, re-submitting a number the same user
already owns returns success with `Created = false` and changes nothing,
and submitting a number owned by any other user returns `errConflict` and
changes nothing. -/
theorem createOrder_idempotent_and_conflict (st : DBState) (userID : Int)
    (number : String) (now : Nat) (newID : Int)
    (hvalid : IsValidOrderNumber number = true) :
    (GetByNumber st.orders number = some userID →
      CreateOrder st userID number now newID = (Except.ok ⟨false⟩, st))
    ∧ (∀ other : Int, GetByNumber st.orders number = some other → other ≠ userID →
        CreateOrder st userID number now newID
          = (Except.error OrderServiceError.errConflict, st)) := by
  have hne : number ≠ "" := by
    intro h
    rw [h] at hvalid
    simp [IsValidOrderNumber] at hvalid
  constructor
  · intro hmine
    simp [CreateOrder, hne, hvalid, hmine]
  · intro other hother hneq
    simp [CreateOrder, hne, hvalid, hother, hneq]

/-- Witness for C7: user 7 re-submits their own number 42 (a no-op), user 8
submits it (a conflict); the store is unchanged in both cases. -/
theorem createOrder_idempotent_and_conflict_witness :
    (CreateOrder (DBState.mk [OrderRow.mk 1 7 "42" "NEW" none 0] [])
        7 "42" 5 2
      = (Except.ok ⟨false⟩, DBState.mk [OrderRow.mk 1 7 "42" "NEW" none 0] []))
    ∧ (CreateOrder (DBState.mk [OrderRow.mk 1 7 "42" "NEW" none 0] [])
        8 "42" 5 2
      = (Except.error OrderServiceError.errConflict,
          DBState.mk [OrderRow.mk 1 7 "42" "NEW" none 0] [])) := by
  have h7 := createOrder_idempotent_and_conflict
    (DBState.mk [OrderRow.mk 1 7 "42" "NEW" none 0] []) 7 "42" 5 2 (by decide)
  have h8 := createOrder_idempotent_and_conflict
    (DBState.mk [OrderRow.mk 1 7 "42" "NEW" none 0] []) 8 "42" 5 2 (by decide)
  exact ⟨h7.1 (by decide), h8.2 7 (by decide) (by decide)⟩

/-- Updating the one row with a given id through an id-preserving function
keeps both table invariants, provided the updated row satisfies the
accrual invariant afterwards. -/
theorem update_row_preserves (orders : List OrderRow) (o : OrderRow) (ho : o ∈ orders)
    (hu : UniqueIds orders) (hi : AccrualInv orders)
    (g : OrderRow → OrderRow) (hid : ∀ r, (g r).id = r.id)
    (hok : (g o).accrual ≠ none ↔ (g o).status = "PROCESSED") :
    UniqueIds (orders.map fun r => if r.id = o.id then g r else r)
    ∧ AccrualInv (orders.map fun r => if r.id = o.id then g r else r) := by
  constructor
  · intro a ha b hb hab
    rw [List.mem_map] at ha hb
    obtain ⟨a0, ha0, rfl⟩ := ha
    obtain ⟨b0, hb0, rfl⟩ := hb
    have hida : (if a0.id = o.id then g a0 else a0).id = a0.id := by
      split <;> simp [hid]
    have hidb : (if b0.id = o.id then g b0 else b0).id = b0.id := by
      split <;> simp [hid]
    rw [hida, hidb] at hab
    rw [hu a0 ha0 b0 hb0 hab]
  · intro r hr
    rw [List.mem_map] at hr
    obtain ⟨r0, hr0, rfl⟩ := hr
    by_cases hcase : r0.id = o.id
    · have : r0 = o := hu r0 hr0 o ho hcase
      subst this
      rw [if_pos hcase]
      exact hok
    · rw [if_neg hcase]
      exact hi r0 hr0

/-- Every system step — creating a `NEW` order with a fresh id, or the
worker processing a pending order — preserves id uniqueness and the
accrual-iff-processed invariant. -/
theorem sysStep_preserves {s t : List OrderRow} (hstep : SysStep s t)
    (hu : UniqueIds s) (hi : AccrualInv s) : UniqueIds t ∧ AccrualInv t := by
  cases hstep with
  | create uid number now newID hfresh =>
    constructor
    · intro a ha b hb hab
      rcases List.mem_append.1 ha with ha1 | ha1 <;>
        rcases List.mem_append.1 hb with hb1 | hb1
      · exact hu a ha1 b hb1 hab
      · exfalso
        rw [List.mem_singleton.1 hb1] at hab
        exact hfresh a ha1 hab
      · exfalso
        rw [List.mem_singleton.1 ha1] at hab
        exact hfresh b hb1 hab.symm
      · rw [List.mem_singleton.1 ha1, List.mem_singleton.1 hb1]
    · intro r hr
      rcases List.mem_append.1 hr with hr1 | hr1
      · exact hi r hr1
      · rw [List.mem_singleton.1 hr1]
        simp
  | worker o ho hpending res =>
    have haccr : o.accrual = none := by
      have hiff := hi o ho
      by_contra hne
      have hps := hiff.1 hne
      rcases hpending with hp | hp <;> rw [hp] at hps <;> simp at hps
    cases res with
    | rateLimited d => exact ⟨hu, hi⟩
    | otherError => exact ⟨hu, hi⟩
    | unknown => exact ⟨hu, hi⟩
    | info oa =>
      cases hst : oa.status with
      | registered =>
        have := update_row_preserves s o ho hu hi
          (fun r => { r with status := "PROCESSING" }) (fun r => rfl)
          (by simp [haccr])
        simpa [applyEvents, applyEvent, processOrder, hst] using this
      | processing =>
        have := update_row_preserves s o ho hu hi
          (fun r => { r with status := "PROCESSING" }) (fun r => rfl)
          (by simp [haccr])
        simpa [applyEvents, applyEvent, processOrder, hst] using this
      | invalid =>
        have := update_row_preserves s o ho hu hi
          (fun r => { r with status := "INVALID" }) (fun r => rfl)
          (by simp [haccr])
        simpa [applyEvents, applyEvent, processOrder, hst] using this
      | processed =>
        have := update_row_preserves s o ho hu hi
          (fun r => { r with status := "PROCESSED", accrual := some (oa.accrual.getD 0) })
          (fun r => rfl) (by simp)
        simpa [applyEvents, applyEvent, processOrder, hst] using this

/-- Both table invariants hold in every reachable state. -/
theorem reachableOrders_strong {s : List OrderRow} (h : ReachableOrders s) :
    UniqueIds s ∧ AccrualInv s := by
  induction h with
  | init =>
    constructor
    · intro a ha
      simp at ha
    · intro o ho
      simp at ho
  | step s t h hs ih => exact sysStep_preserves hs ih.1 ih.2

/-- C8: in every order-table state reachable by creations and worker
updates, an order's accrual amount is non-null exactly when its status is
`PROCESSED` (the terminal accepted state); each operation preserves the
invariant. -/
theorem reachable_accrual_iff_processed (s : List OrderRow) (h : ReachableOrders s) :
    ∀ o ∈ s, (o.accrual ≠ none ↔ o.status = "PROCESSED") :=
  (reachableOrders_strong h).2

/-- Witness for C8: the state reached by creating order 42 for user 7 and
the worker then accepting it with accrual 500. -/
theorem reachable_accrual_iff_processed_witness :
    (OrderRow.mk 1 7 "42" "PROCESSED" (some 500) 0).accrual ≠ none ↔
      (OrderRow.mk 1 7 "42" "PROCESSED" (some 500) 0).status = "PROCESSED" := by
  have h0 : ReachableOrders [] := ReachableOrders.init
  have h1 : ReachableOrders [OrderRow.mk 1 7 "42" "NEW" none 0] := by
    have hc := SysStep.create [] 7 "42" 0 1 (by simp)
    exact ReachableOrders.step _ _ h0 (by simpa using hc)
  have h2 : ReachableOrders [OrderRow.mk 1 7 "42" "PROCESSED" (some 500) 0] := by
    have hw := SysStep.worker [OrderRow.mk 1 7 "42" "NEW" none 0]
      (OrderRow.mk 1 7 "42" "NEW" none 0) (by simp) (Or.inl rfl)
      (ProviderResult.info ⟨"42", ProviderStatus.processed, some 500⟩)
    have he : applyEvents [OrderRow.mk 1 7 "42" "NEW" none 0]
        (processOrder (OrderRow.mk 1 7 "42" "NEW" none 0).id
          (ProviderResult.info ⟨"42", ProviderStatus.processed, some 500⟩))
        = [OrderRow.mk 1 7 "42" "PROCESSED" (some 500) 0] := by
      simp [applyEvents, applyEvent, processOrder]
    exact ReachableOrders.step _ _ h1 (he ▸ hw)
  exact reachable_accrual_iff_processed _ h2 _ (by simp)

/-- C9 (amended): cancellation raised during the poll-interval timer wait or
during the provider call ends that suspension at the cancellation instant,
strictly before the full delay; but the rate-limit pause always lasts the
whole provider-given delay no matter when cancellation is raised, because
it is a bare `time.Sleep` — the worker reacts to cancellation only
afterwards, at the next loop check. -/
theorem cancellation_wait_behavior (t d : Nat) (h : t < d) :
    pollTimerWait (some t) d = t ∧ pollTimerWait (some t) d < d ∧
    providerCallWait (some t) d = t ∧ providerCallWait (some t) d < d ∧
    rateLimitPause (some t) d = d := by
  refine ⟨?_, ?_, ?_, ?_, rfl⟩ <;> simp [pollTimerWait, providerCallWait] <;> omega

/-- Witness for C9: cancellation raised at the start of a 60-unit wait. -/
theorem cancellation_wait_behavior_witness :
    pollTimerWait (some 0) 60 = 0 ∧ pollTimerWait (some 0) 60 < 60 ∧
    providerCallWait (some 0) 60 = 0 ∧ providerCallWait (some 0) 60 < 60 ∧
    rateLimitPause (some 0) 60 = 60 :=
  cancellation_wait_behavior 0 60 (by decide)

/-- C9 counterexample: with cancellation already raised when the rate-limit
pause starts, the worker still stays suspended for the full 60-unit delay
instead of ending the suspension promptly. -/
theorem rateLimit_pause_ignores_cancellation :
    rateLimitPause (some 0) 60 = 60 ∧ (60 : Nat) ≠ 0 := by
  decide

/-- C10: a PROCESSED provider answer whose accrual field is absent still
moves the order to `PROCESSED`, recording accrual 0 in the same write —
the row's accrual is `some 0`, not null, and the order is not skipped. -/
theorem processed_without_accrual_records_zero (oid : Int) (n num stt : String)
    (u : Int) (a0 : Option ℚ) (t : Nat) :
    processOrder oid (ProviderResult.info ⟨n, ProviderStatus.processed, none⟩)
      = [WorkerEvent.updateStatusWithAccrual oid "PROCESSED" 0]
    ∧ applyEvents [OrderRow.mk oid u num stt a0 t]
        (processOrder oid (ProviderResult.info ⟨n, ProviderStatus.processed, none⟩))
      = [OrderRow.mk oid u num "PROCESSED" (some 0) t] := by
  refine ⟨rfl, ?_⟩
  simp [applyEvents, applyEvent, processOrder]

end Gophermart
